import Mathlib

/-!
Verification development for the `fengbao` packet codec
(`src/core/crypto.py`, class `UniversalPacketParser`).

Bytes are modelled as `Nat` values `< 256`; byte strings as `List Nat`.
Python's `struct.unpack('<I' / '<H', ...)` becomes explicit little-endian
arithmetic, `struct.pack` the inverse with explicit range checks (Python
raises `struct.error` out of range).  Stateful methods take and return an
explicit `ParserState`.  In-band parse failures are modelled by the
`success` flag and `error` field of `ParseResult`, exactly as in the
source; the reconstruct path, which raises in Python, returns
`Except String`.
-/

namespace Fengbao

/-! ## Little-endian field access (struct.unpack / struct.pack) -/

/-- Models `struct.unpack('<H', d[off:off+2])`: little-endian 16-bit read. -/
def readU16le (d : List Nat) (off : Nat) : Nat :=
  d.getD off 0 + 256 * d.getD (off + 1) 0

/-- Models `struct.unpack('<I', d[off:off+4])`: little-endian 32-bit read. -/
def readU32le (d : List Nat) (off : Nat) : Nat :=
  d.getD off 0 + 256 * d.getD (off + 1) 0 + 65536 * d.getD (off + 2) 0 +
    16777216 * d.getD (off + 3) 0

/-- Models `struct.pack('<H', v)`; `none` models the `struct.error` raised when
`v` is out of range. -/
def packU16le (v : Nat) : Option (List Nat) :=
  if v < 65536 then some [v % 256, v / 256 % 256] else none

/-- Models `struct.pack('<I', v)`; `none` models the `struct.error` raised when
`v` is out of range. -/
def packU32le (v : Nat) : Option (List Nat) :=
  if v < 4294967296 then
    some [v % 256, v / 256 % 256, v / 65536 % 256, v / 16777216 % 256]
  else none

/-! ## XOR obfuscation

`for i in range(len(data)): xor_val = table[i] if i < len(table) else 0x3C`
-/

/-- Fallback XOR byte used beyond the end of a table. -/
def xorFallback : Nat := 0x3C

/-- Position-wise XOR of `data` against `table`, with `0x3C` beyond the
table's length.  Recursion peels one data byte and one table byte at a
time; `headD _ xorFallback` is `table[i] if i < len(table) else 0x3C`. -/
def xorWith : List Nat → List Nat → List Nat
  | _, [] => []
  | t, b :: bs => (b ^^^ t.headD xorFallback) :: xorWith t.tail bs

/-! ## GBK ("regional") text codec model

The source calls Python's `bytes.decode('gbk', errors='ignore')`,
`str.encode('gbk')` and `str.isprintable()`.  The cp936 code-point table
is library code, not repository code; it is abstracted here at the level
that the repository observes it:

* a decoded character is either a single ASCII byte, the single byte
  `0x80` (euro sign), or a lead/trail double-byte pair — `GbkChar` keeps
  the originating bytes, so re-encoding is exact;
* the scan structure (lead bytes `0x81..0xFE`, trail bytes
  `0x40..0xFE` except `0x7F`, one byte skipped per invalid sequence under
  `errors='ignore'`) follows the codec;
* `str.isprintable()` is exact on ASCII and the euro sign; for
  double-byte characters it is modelled at zone granularity
  (`gbkPairPrintable`): assigned GBK zones decode to printable CJK
  text, the user-defined zones decode to private-use code points (not
  printable), and `0xA1A1` is the ideographic space (not printable).
-/

/-- One character produced by lenient GBK decoding, remembering its
source bytes. -/
inductive GbkChar where
  | ascii (b : Nat)
  | euro
  | pair (lead trail : Nat)
deriving Repr, DecidableEq, Inhabited

/-- Is `t` a valid GBK trail byte? -/
def gbkTrailOk (t : Nat) : Bool :=
  decide (0x40 ≤ t ∧ t ≤ 0xFE ∧ t ≠ 0x7F)

/-- Models `bytes.decode('gbk', errors='ignore')` — structural scan; invalid
sequences drop exactly the offending byte; a lead byte truncated at the
end of the buffer is dropped. -/
def gbkDecodeIgnore : List Nat → List GbkChar
  | [] => []
  | [b] =>
    if b < 0x80 then [.ascii b]
    else if b = 0x80 then [.euro]
    else []
  | b :: t :: rest =>
    if b < 0x80 then .ascii b :: gbkDecodeIgnore (t :: rest)
    else if b = 0x80 then .euro :: gbkDecodeIgnore (t :: rest)
    else if b ≤ 0xFE then
      if gbkTrailOk t then .pair b t :: gbkDecodeIgnore rest
      else gbkDecodeIgnore (t :: rest)
    else gbkDecodeIgnore (t :: rest)

/-- Models `str.encode('gbk')` of a decoded character: exact, since the source
bytes were kept. -/
def gbkEncodeChar : GbkChar → List Nat
  | .ascii b => [b]
  | .euro => [0x80]
  | .pair l t => [l, t]

/-- Models `text.encode('gbk')`. -/
def gbkEncode (cs : List GbkChar) : List Nat :=
  (cs.map gbkEncodeChar).flatten

/-- Models `str.isprintable()` for a double-byte GBK character, modelled at zone
granularity (see module comment): user-defined zones map to private-use
code points (category Co, not printable), `0xA1A1` is U+3000 ideographic
space (category Zs, not printable); the assigned zones are printable. -/
def gbkPairPrintable (l t : Nat) : Bool :=
  if l = 0xA1 ∧ t = 0xA1 then false
  else if 0xA1 ≤ l ∧ l ≤ 0xA7 ∧ 0x40 ≤ t ∧ t ≤ 0xA0 then false
  else if 0xAA ≤ l ∧ l ≤ 0xAF ∧ 0xA1 ≤ t then false
  else if 0xF8 ≤ l ∧ l ≤ 0xFE ∧ 0xA1 ≤ t then false
  else true

/-- Models `c.isprintable()`: exact on ASCII (`0x20..0x7E`) and the euro sign. -/
def gbkCharPrintable : GbkChar → Bool
  | .ascii b => decide (0x20 ≤ b ∧ b ≤ 0x7E)
  | .euro => true
  | .pair l t => gbkPairPrintable l t

/-- Models `c.isprintable() or ord(c) > 127` — the parse-path text filter.
Every double-byte GBK character and the euro sign have code points
above 127, so only ASCII is actually filtered; this case is exact. -/
def gbkCharKeep : GbkChar → Bool
  | .ascii b => decide (0x20 ≤ b ∧ b ≤ 0x7E)
  | .euro => true
  | .pair _ _ => true

/-- Models `sum(1 for c in text if c.isprintable())`. -/
def gbkPrintableCount (cs : List GbkChar) : Nat :=
  (cs.filter gbkCharPrintable).length

/-- Rendering of a decoded character for the plaintext string.  ASCII and
the euro sign are exact; a double-byte pair is rendered as a modelled
code point that is injective in the pair (the concrete cp936 table is
abstracted — no theorem below compares a rendered double-byte pair). -/
def gbkCharToString : GbkChar → String
  | .ascii b => String.singleton (Char.ofNat b)
  | .euro => "€"
  | .pair l t => String.singleton (Char.ofNat (0xE000 + (l - 0x81) * 191 + (t - 0x40)))

def gbkTextToString (cs : List GbkChar) : String :=
  String.join (cs.map gbkCharToString)

/-! ## Registry (`XOR_TABLE_MAP`, `FUNCTION_NAMES`) and parser state -/

/-- Python `dict` lookup `m.get(k)` on an insertion-ordered map. -/
def lookupD {α : Type} (m : List (Nat × α)) (k : Nat) : Option α :=
  (m.find? (fun p => p.1 == k)).map (·.2)

/-- Python `dict` assignment `m[k] = v`: replaces in place if the key
exists, appends otherwise. -/
def dictInsert {α : Type} : List (Nat × α) → Nat → α → List (Nat × α)
  | [], k, v => [(k, v)]
  | (k', v') :: rest, k, v =>
    if k' = k then (k, v) :: rest else (k', v') :: dictInsert rest k v

/-- The `XOR_TABLE_MAP` registry, in source insertion order. -/
def xorTableMap : List (Nat × List Nat) :=
  [ (0x0BC3, [0x3C, 0x3C, 0x3C, 0x3C, 0x3C, 0x3C, 0x3C, 0x3C,
              0xF9, 0x37, 0x58, 0x41, 0x3D, 0x72, 0x0E, 0x3C]),
    (0x0BC5, [0x3C, 0x3C, 0x3C, 0x3C, 0x3C, 0x3C, 0x3C, 0x3C,
              0xF9, 0x37, 0x58, 0x41, 0x3D, 0x72, 0x0E, 0x3C]),
    (0x0BC9, [0x3C, 0x3C, 0x3C, 0x3C, 0x3C, 0x3C, 0x3C, 0x3C,
              0xF9, 0x37, 0x58, 0x41, 0x3D, 0x72, 0x0E, 0x3C]),
    (0x03EE, [0x0F, 0x88, 0x7D, 0x3C, 0x3C, 0x3C, 0x3C, 0x3C,
              0xD2, 0x3F, 0x70, 0x6A, 0x62, 0x70, 0x68, 0x3C,
              0x83, 0x82, 0x84, 0x89, 0xF5, 0xCD, 0xBB, 0xE7]),
    (0x1396, [0x6A, 0x26, 0x50, 0x3C, 0x3C, 0x3C, 0x3C, 0x3C,
              0xAA, 0x2F, 0x30, 0x52, 0x40, 0x6C, 0x74, 0x3C,
              0xF2, 0xE2, 0xD4, 0x9A, 0x89, 0xF8, 0xBE, 0xDA]),
    (0x1397, [0x6A, 0x26, 0x50, 0x3C, 0x3C, 0x3C, 0x3C, 0x3C,
              0xAA, 0x2F, 0x30, 0x52, 0x40, 0x6C, 0x74, 0x3C,
              0xF2, 0xE2, 0xD4, 0x9A, 0x89, 0xF8, 0xBE, 0xDA]),
    (0x03F2, [0x3C, 0xC6, 0xF8, 0x77, 0x3F, 0x4C, 0x3C, 0x3C,
              0xCE, 0x3F, 0x3F, 0x6E, 0x3C, 0x6C, 0x3C, 0x3C]),
    (0x03F3, [0x3C, 0xC6, 0xF8, 0x77, 0x3F, 0x4C, 0x3C, 0x3C,
              0xCF, 0x3F, 0x3F, 0x6F, 0x3C, 0x6C, 0x3C, 0x3C,
              0x7C, 0xEB, 0x8C, 0x8D, 0x84, 0xF6, 0xB8, 0x99]) ]

/-- The `FUNCTION_NAMES` registry. -/
def functionNames : List (Nat × String) :=
  [ (0x0BC3, "移动_旧坐标系"), (0x0BC5, "移动_新坐标系"), (0x0BC9, "使用技能"),
    (0x03EE, "使用物品"), (0x1396, "放入物品到对话框"), (0x1397, "从对话框取出物品"),
    (0x03F2, "点击NPC"), (0x03F3, "NPC对话选项") ]

/-- The mutable state of a `UniversalPacketParser` instance: the sequence
counter from `__init__`, plus the two (class-level, runtime-mutable)
registries. -/
structure ParserState where
  sequence : Nat
  tables : List (Nat × List Nat)
  names : List (Nat × String)
deriving Repr, DecidableEq

/-- State of a freshly constructed parser (`__init__`: `sequence = 1`). -/
def initState : ParserState :=
  { sequence := 1, tables := xorTableMap, names := functionNames }

/-- Models `add_xor_table(func_code, xor_table, func_name=None)`. -/
def add_xor_table (st : ParserState) (funcCode : Nat) (table : List Nat)
    (funcName : Option String) : ParserState :=
  { st with
    tables := dictInsert st.tables funcCode table,
    names := match funcName with
      | some n => dictInsert st.names funcCode n
      | none => st.names }

/-! ## Classifier: candidates and scoring (`parse`, step 4) -/

/-- Function codes of the "movement/skill" class (`parse`, scoring
rule 2, first branch). -/
def movementCodes : List Nat := [0x0BC3, 0x0BC5, 0x0BC9]

/-- Function codes of the "item/NPC" class (`parse`, scoring rule 2,
second branch). -/
def itemNpcCodes : List Nat := [0x03EE, 0x03F2, 0x03F3, 0x1396, 0x1397]

/-- Scoring rule 1: `+100` if `param2 == 0`. -/
def bonusParam2 (p2 : Nat) : Nat := if p2 = 0 then 100 else 0

/-- Scoring rule 2: `+200` for a movement-class code with `param1 == 0`,
else `+50` for an item/NPC-class code with `param1 != 0`. -/
def bonusParam1Class (code p1 : Nat) : Nat :=
  if code ∈ movementCodes ∧ p1 = 0 then 200
  else if code ∈ itemNpcCodes ∧ p1 ≠ 0 then 50
  else 0

/-- Scoring rule 3: `if param1 < 0xFFFFFF: score += 10` (the source's
comment says "param1 below 16M"). -/
def bonusSmallParam1 (p1 : Nat) : Nat := if p1 < 0xFFFFFF then 10 else 0

/-- Scoring rule 5: `+5` per printable character in the lenient GBK
decoding of `decrypted[16:min(24, len)]`, only when the payload is
longer than 16 bytes. -/
def bonusExtText (decrypted : List Nat) : Nat :=
  if 16 < decrypted.length then
    5 * gbkPrintableCount (gbkDecodeIgnore ((decrypted.drop 16).take 8))
  else 0

/-- Total score of a surviving candidate (scoring rules 1-5; rule 4 is
`+ len(xor_table)`). -/
def scoreCandidate (code : Nat) (table decrypted : List Nat) : Nat :=
  bonusParam2 (readU32le decrypted 4) +
  bonusParam1Class code (readU32le decrypted 0) +
  bonusSmallParam1 (readU32le decrypted 0) +
  table.length +
  bonusExtText decrypted

/-- One surviving classifier candidate
(`(func_code, xor_table, decrypted_data, score)`). -/
structure Candidate where
  code : Nat
  table : List Nat
  decrypted : List Nat
  score : Nat
deriving Repr, DecidableEq

instance : Inhabited Candidate := ⟨⟨0, [], [], 0⟩⟩

/-- The candidate list: for every registered table, decrypt, read the
embedded code at offset 8, and keep the candidate only when it equals
the table's own registered code (the self-consistency gate). -/
def computeCandidates (tables : List (Nat × List Nat)) (payload : List Nat) :
    List Candidate :=
  tables.filterMap fun e =>
    let d := xorWith e.2 payload
    if 10 ≤ d.length ∧ readU16le d 8 = e.1 then
      some { code := e.1, table := e.2, decrypted := d,
             score := scoreCandidate e.1 e.2 d }
    else none

/-- Models `candidates.sort(key=score, reverse=True); candidates[0]`: Python's
sort is stable, so the selected candidate is the first one (in registry
insertion order) attaining the maximal score.  Modelled as a fold that
replaces the best candidate only on a strictly greater score. -/
def pickBest : List Candidate → Option Candidate
  | [] => none
  | c :: cs => some (cs.foldl (fun b d => if b.score < d.score then d else b) c)

/-! ## Parse result object -/

/-- The `core_data` dict of a successful parse. -/
structure CoreData where
  param1 : Nat
  param2 : Nat
  function_code : Nat
  param3 : Nat
  param4 : Nat
  param5 : Nat
deriving Repr, DecidableEq

/-- The `extended_data` dict (payload beyond the fixed 16 bytes). -/
structure ExtendedData where
  length : Nat
  raw_bytes : List Nat
  text : Option (List GbkChar)
deriving Repr, DecidableEq

/-- The result dict of `parse`; absent keys are `none`. -/
structure ParseResult where
  success : Bool
  raw_hex : String
  sequence : Option Nat
  function_code : Option Nat
  function_name : Option String
  core_data : Option CoreData
  extended_data : Option ExtendedData
  decrypted : Option (List Nat)
  plaintext : Option String
  error : Option String
deriving Repr, DecidableEq

/-- A failed result: `success=False` with the in-band error message. -/
def failResult (rawHex msg : String) : ParseResult :=
  { success := false, raw_hex := rawHex, sequence := none,
    function_code := none, function_name := none, core_data := none,
    extended_data := none, decrypted := none, plaintext := none,
    error := some msg }

def lengthErrMsg (n : Nat) : String :=
  s!"封包长度不足，至少需要19字节，当前{n}字节"

def markerErrMsg : String := "封包格式错误：头尾标识不匹配（应为 # 和 !）"

def classifyErrMsg : String := "无法识别封包类型（未找到匹配的XOR表）"

/-- The `except Exception` wrapper turns any raised error into an in-band
message `f"解析异常: {e}"`; the Python exception text itself is library
output and is abstracted. -/
def exceptionErrMsg : String := "解析异常: invalid literal for int()"

/-! ## parse -/

/-- Models `int(chr(b))`: it succeeds exactly on the ASCII digits `0x30..0x39`
(no other single Latin-1 character is a Unicode decimal digit); anything
else raises `ValueError`, caught by the outer `except` of `parse`. -/
def seqDigit? (b : Nat) : Option Nat :=
  if 0x30 ≤ b ∧ b ≤ 0x39 then some (b - 0x30) else none

/-- Models `text_bytes.rstrip(b'\x00')`. -/
def stripTrailingZeros (l : List Nat) : List Nat :=
  (l.reverse.dropWhile (fun b => b == 0)).reverse

/-- Extended-text extraction (`parse`, step 6): strip trailing zero
bytes, decode leniently, keep printable-or-non-ASCII characters, and
record the text only if something survives. -/
def extractText (extBytes : List Nat) : Option (List GbkChar) :=
  let stripped := stripTrailingZeros extBytes
  if stripped.isEmpty then none
  else
    let cs := (gbkDecodeIgnore stripped).filter gbkCharKeep
    if cs.isEmpty then none else some cs

/-- Models the `02X` hex rendering of one byte. -/
def byteHex (b : Nat) : String :=
  let dig := fun (n : Nat) =>
    if n < 10 then Char.ofNat (0x30 + n) else Char.ofNat (0x37 + n)
  String.mk [dig (b / 16 % 16), dig (b % 16)]

def bytesHex (l : List Nat) : String :=
  " ".intercalate (l.map byteHex)

/-- Models `_generate_plaintext`. -/
def generatePlaintext (cd : CoreData) (ext : Option ExtendedData) : String :=
  let params : List String :=
    [toString cd.param1, toString cd.param2, toString cd.function_code,
     toString cd.param3, toString cd.param4]
  let params := params ++
    (match ext with
     | some ed => match ed.text with
       | some t => [gbkTextToString t]
       | none => []
     | none => [])
  "发送封包（" ++ "，".intercalate params ++ "，）"

/-- The `core_data` record read from the winning candidate
(`parse`, step 5). -/
def coreDataOf (c : Candidate) : CoreData :=
  { param1 := readU32le c.decrypted 0,
    param2 := readU32le c.decrypted 4,
    function_code := c.code,
    param3 := readU16le c.decrypted 10,
    param4 := readU16le c.decrypted 12,
    param5 := readU16le c.decrypted 14 }

/-- The `extended_data` record of the winning candidate
(`parse`, step 6). -/
def extendedDataOf (c : Candidate) : Option ExtendedData :=
  if 16 < c.decrypted.length then
    some { length := c.decrypted.length - 16,
           raw_bytes := c.decrypted.drop 16,
           text := extractText (c.decrypted.drop 16) }
  else none

/-- The result object of a successful `parse` (steps 5-8). -/
def successResult (st : ParserState) (rawHex : String) (seq : Nat)
    (c : Candidate) : ParseResult :=
  let code := c.code
  { success := true, raw_hex := rawHex, sequence := some seq,
    function_code := some c.code,
    function_name := some ((lookupD st.names c.code).getD s!"未知功能_{code}"),
    core_data := some (coreDataOf c), extended_data := extendedDataOf c,
    decrypted := some c.decrypted,
    plaintext := some (generatePlaintext (coreDataOf c) (extendedDataOf c)),
    error := none }

/-- Models `parse` after hex conversion: framing validation, sequence digit,
classification, field decoding, plaintext generation. -/
def parseBytes (st : ParserState) (rawHex : String) (bytes : List Nat) :
    ParseResult :=
  if bytes.length < 19 then failResult rawHex (lengthErrMsg bytes.length)
  else if ¬(bytes.getD 0 0 = 0x23 ∧ bytes.getLast? = some 0x21) then
    failResult rawHex markerErrMsg
  else
    match seqDigit? (bytes.getD 1 0) with
    | none => failResult rawHex exceptionErrMsg
    | some seq =>
      match pickBest (computeCandidates st.tables ((bytes.drop 2).dropLast)) with
      | none => { failResult rawHex classifyErrMsg with sequence := some seq }
      | some c => successResult st rawHex seq c

/-- One hex digit of `bytes.fromhex`. -/
def hexDigit? (c : Char) : Option Nat :=
  if '0' ≤ c ∧ c ≤ '9' then some (c.toNat - 48)
  else if 'a' ≤ c ∧ c ≤ 'f' then some (c.toNat - 87)
  else if 'A' ≤ c ∧ c ≤ 'F' then some (c.toNat - 55)
  else none

/-- Models `bytes.fromhex` on a space-free string: pairs of hex digits. -/
def hexPairs : List Char → Option (List Nat)
  | [] => some []
  | [_] => none
  | a :: b :: rest =>
    match hexDigit? a, hexDigit? b, hexPairs rest with
    | some x, some y, some l => some ((16 * x + y) :: l)
    | _, _, _ => none

/-- Models `bytes.fromhex` applied after removing spaces; `none` models the `ValueError`
(caught in-band by `parse`). -/
def hexDecode (s : String) : Option (List Nat) :=
  hexPairs (s.toList.filter (fun c => c ≠ ' '))

/-- Models `parse(encrypted_hex)`: the full entry point.  Total by
construction — every failure is reported on the result object. -/
def parse (st : ParserState) (encryptedHex : String) : ParseResult :=
  match hexDecode encryptedHex with
  | none => failResult encryptedHex "解析异常: non-hexadecimal input"
  | some bytes => parseBytes st encryptedHex bytes

/-! ## reconstruct -/

/-- Models `while len(data) < 22: data.append(0x00)`. -/
def padTo22 (l : List Nat) : List Nat :=
  l ++ List.replicate (22 - l.length) 0

/-- Models `ord(str(sequence))`: a single ASCII digit for `0 ≤ n ≤ 9`; for a
larger value `ord` receives a multi-character string and raises
(`TypeError`), modelled as `none`. -/
def digitByte? (n : Nat) : Option Nat :=
  if n < 10 then some (0x30 + n) else none

/-- The extended-text re-encoding step of `reconstruct`
(`if extended_data and extended_data.get('text'): data.extend(text.encode('gbk'))`). -/
def reconTextBytes (pd : ParseResult) : List Nat :=
  match pd.extended_data with
  | some ed => match ed.text with
    | some t => gbkEncode t
    | none => []
  | none => []

/-- Models `reconstruct(parsed_data, sequence=None)`.  Returns the raised error
or the framed packet (as bytes — the `latin-1` ASCII rendering is a
bijective image of them — together with the hex rendering), paired with
the parser state after the call.  The sequence counter is read and
advanced exactly when `sequence` is omitted, after the data buffer is
built, as in the source. -/
def reconstruct (st : ParserState) (pd : ParseResult) (seq? : Option Nat) :
    Except String (List Nat × String) × ParserState :=
  if pd.success ≠ true then (.error "无法重构失败的解析结果", st)
  else
    match pd.function_code, pd.core_data with
    | some fc, some cd =>
      match lookupD st.tables fc with
      | none => (.error s!"未知功能码: {fc}", st)
      | some table =>
        match packU32le cd.param1, packU32le cd.param2, packU16le fc,
              packU16le cd.param3, packU16le cd.param4, packU16le cd.param5 with
        | some b1, some b2, some bf, some b3, some b4, some b5 =>
          let data := padTo22 (b1 ++ b2 ++ bf ++ b3 ++ b4 ++ b5 ++ reconTextBytes pd)
          let seqSt : Nat × ParserState :=
            match seq? with
            | some n => (n, st)
            | none => (st.sequence, { st with sequence := st.sequence % 9 + 1 })
          let out : Except String (List Nat × String) :=
            match digitByte? seqSt.1 with
            | none => .error "ord() expected a character"
            | some sb =>
              let encrypted := 0x23 :: sb :: (xorWith table data ++ [0x21])
              .ok (encrypted, bytesHex encrypted)
          (out, seqSt.2)
        | _, _, _, _, _, _ => (.error "struct.error: argument out of range", st)
    | _, _ => (.error "KeyError", st)

/-- Projection used to state theorems about the reconstructed bytes. -/
def reconBytes (r : Except String (List Nat × String)) : List Nat :=
  match r with
  | .ok o => o.1
  | .error _ => []

/-! ## Helper lemmas: XOR layer -/

theorem xorWith_length (t d : List Nat) : (xorWith t d).length = d.length := by
  induction d generalizing t with
  | nil => rfl
  | cons b bs ih => simp [xorWith, ih]

theorem getD_tail (t : List Nat) (j : Nat) (dflt : Nat) :
    t.tail.getD j dflt = t.getD (j + 1) dflt := by
  cases t <;> simp [List.getD]

theorem headD_eq_getD (t : List Nat) (dflt : Nat) :
    t.headD dflt = t.getD 0 dflt := by
  cases t <;> rfl

theorem xorWith_getD (t d : List Nat) (i : Nat) (h : i < d.length) :
    (xorWith t d).getD i 0 = d.getD i 0 ^^^ t.getD i xorFallback := by
  induction d generalizing t i with
  | nil => simp at h
  | cons b bs ih =>
    cases i with
    | zero => cases t <;> simp [xorWith, List.getD]
    | succ j =>
      have hj : j < bs.length := by simpa using h
      simp only [xorWith, List.getD_cons_succ]
      rw [ih t.tail j hj, getD_tail]

theorem xor_cancel_right (a b : Nat) : a ^^^ b ^^^ b = a := by
  rw [Nat.xor_assoc, Nat.xor_self, Nat.xor_zero]

theorem xor_lt_256 {a b : Nat} (ha : a < 256) (hb : b < 256) : a ^^^ b < 256 := by
  have := Nat.xor_lt_two_pow (n := 8) (by simpa using ha) (by simpa using hb)
  simpa using this

theorem getD_lt_256 (l : List Nat) (h : ∀ b ∈ l, b < 256) (i : Nat) :
    l.getD i 0 < 256 := by
  by_cases hi : i < l.length
  · rw [List.getD_eq_getElem _ _ hi]
    exact h _ (List.getElem_mem hi)
  · rw [List.getD_eq_default _ _ (Nat.le_of_not_lt hi)]; omega

theorem xorWith_bytes_lt (t d : List Nat) (ht : ∀ b ∈ t, b < 256)
    (hd : ∀ b ∈ d, b < 256) : ∀ b ∈ xorWith t d, b < 256 := by
  induction d generalizing t with
  | nil => simp [xorWith]
  | cons b bs ih =>
    intro x hx
    simp only [xorWith, List.mem_cons] at hx
    rcases hx with hx | hx
    · subst hx
      refine xor_lt_256 (hd b (by simp)) ?_
      cases t with
      | nil => simp [xorFallback]
      | cons a tl => exact ht a (by simp)
    · refine ih t.tail (fun y hy => ht y (List.mem_of_mem_tail hy))
        (fun y hy => hd y (by simp [hy])) x hx

/-! ## Helper lemmas: little-endian fields -/

theorem readU32le_lt (d : List Nat) (off : Nat) (h : ∀ b ∈ d, b < 256) :
    readU32le d off < 4294967296 := by
  have h0 := getD_lt_256 d h off
  have h1 := getD_lt_256 d h (off + 1)
  have h2 := getD_lt_256 d h (off + 2)
  have h3 := getD_lt_256 d h (off + 3)
  unfold readU32le
  omega

theorem readU16le_lt (d : List Nat) (off : Nat) (h : ∀ b ∈ d, b < 256) :
    readU16le d off < 65536 := by
  have h0 := getD_lt_256 d h off
  have h1 := getD_lt_256 d h (off + 1)
  unfold readU16le
  omega

theorem packU32le_readU32le (d : List Nat) (off : Nat) (h : ∀ b ∈ d, b < 256) :
    packU32le (readU32le d off) =
      some [d.getD off 0, d.getD (off + 1) 0, d.getD (off + 2) 0,
            d.getD (off + 3) 0] := by
  have h0 := getD_lt_256 d h off
  have h1 := getD_lt_256 d h (off + 1)
  have h2 := getD_lt_256 d h (off + 2)
  have h3 := getD_lt_256 d h (off + 3)
  unfold packU32le readU32le
  rw [if_pos (by omega)]
  refine congrArg some ?_
  simp only [List.cons.injEq, and_true]
  refine ⟨by omega, by omega, by omega, by omega⟩

theorem packU16le_readU16le (d : List Nat) (off : Nat) (h : ∀ b ∈ d, b < 256) :
    packU16le (readU16le d off) = some [d.getD off 0, d.getD (off + 1) 0] := by
  have h0 := getD_lt_256 d h off
  have h1 := getD_lt_256 d h (off + 1)
  unfold packU16le readU16le
  rw [if_pos (by omega)]
  refine congrArg some ?_
  simp only [List.cons.injEq, and_true]
  exact ⟨by omega, by omega⟩

/-! ## Helper lemmas: payload slicing -/

theorem payload_getD (bytes : List Nat) (j : Nat) (h : j + 3 < bytes.length) :
    ((bytes.drop 2).dropLast).getD j 0 = bytes.getD (j + 2) 0 := by
  have hlen : ((bytes.drop 2).dropLast).length = bytes.length - 3 := by
    rw [List.length_dropLast, List.length_drop]
    omega
  have hj : j < (bytes.drop 2).dropLast.length := by rw [hlen]; omega
  have hj2 : j < (bytes.drop 2).length - 1 := by
    simp [List.length_drop]; omega
  rw [List.getD_eq_getElem _ _ hj, List.getD_eq_getElem _ _ (by omega)]
  rw [List.getElem_dropLast, List.getElem_drop]
  congr 1
  omega

theorem payload_length (bytes : List Nat) :
    ((bytes.drop 2).dropLast).length = bytes.length - 3 := by
  rw [List.length_dropLast, List.length_drop]
  omega

theorem payload_bytes_lt (bytes : List Nat) (h : ∀ b ∈ bytes, b < 256) :
    ∀ b ∈ (bytes.drop 2).dropLast, b < 256 := fun b hb =>
  h b (List.mem_of_mem_drop (List.mem_of_mem_dropLast hb))

/-! ## Helper lemmas: dict model -/

theorem lookupD_dictInsert_self {α : Type} (m : List (Nat × α)) (k : Nat) (v : α) :
    lookupD (dictInsert m k v) k = some v := by
  induction m with
  | nil => simp [dictInsert, lookupD, List.find?]
  | cons p rest ih =>
    obtain ⟨k', v'⟩ := p
    by_cases hk : k' = k
    · simp [dictInsert, hk, lookupD, List.find?]
    · simpa [dictInsert, hk, lookupD, List.find?] using ih

theorem lookupD_dictInsert_ne {α : Type} (m : List (Nat × α)) (k : Nat) (v : α)
    (k' : Nat) (h : k' ≠ k) :
    lookupD (dictInsert m k v) k' = lookupD m k' := by
  have hkk : (k == k') = false := by simp [Ne.symm h]
  induction m with
  | nil => simp [dictInsert, lookupD, List.find?, hkk]
  | cons p rest ih =>
    obtain ⟨a, b⟩ := p
    by_cases ha : a = k
    · subst ha
      simp only [dictInsert, if_pos rfl, lookupD, List.find?, hkk]
    · by_cases ha' : a = k'
      · have h2 : (a == k') = true := by simp [ha']
        simp only [dictInsert, if_neg ha, lookupD, List.find?, h2]
      · have h2 : (a == k') = false := by simp [ha']
        simp only [dictInsert, if_neg ha, lookupD, List.find?, h2]
        exact ih

theorem lookupD_eq_of_mem {α : Type} (m : List (Nat × α))
    (hnd : (m.map Prod.fst).Nodup) (k : Nat) (v : α) (hm : (k, v) ∈ m) :
    lookupD m k = some v := by
  induction m with
  | nil => simp at hm
  | cons p rest ih =>
    obtain ⟨a, b⟩ := p
    simp only [List.map_cons, List.nodup_cons] at hnd
    rcases List.mem_cons.mp hm with h | h
    · injection h with h1 h2
      subst h1
      subst h2
      simp [lookupD, List.find?]
    · have hne : (a == k) = false := by
        simp only [beq_eq_false_iff_ne, ne_eq]
        intro he
        subst he
        exact hnd.1 (List.mem_map.mpr ⟨(a, v), h, rfl⟩)
      simp only [lookupD, List.find?, hne]
      exact ih hnd.2 h

/-! ## Helper lemmas: candidate list and selection -/

theorem computeCandidates_spec (tables : List (Nat × List Nat))
    (payload : List Nat) (c : Candidate)
    (hc : c ∈ computeCandidates tables payload) :
    (c.code, c.table) ∈ tables ∧ c.decrypted = xorWith c.table payload ∧
      10 ≤ c.decrypted.length ∧ readU16le c.decrypted 8 = c.code ∧
      c.score = scoreCandidate c.code c.table c.decrypted := by
  unfold computeCandidates at hc
  rw [List.mem_filterMap] at hc
  obtain ⟨e, he, hce⟩ := hc
  simp only at hce
  split at hce
  case isTrue hcond =>
    cases Option.some.inj hce
    exact ⟨by simpa using he, rfl, hcond.1, hcond.2, rfl⟩
  case isFalse => exact absurd hce (by simp)

theorem foldBest_decomp (cs : List Candidate) (c : Candidate) :
    ∃ pre post,
      c :: cs =
        pre ++ (cs.foldl (fun b d => if b.score < d.score then d else b) c) :: post ∧
      (∀ d ∈ pre,
        d.score < (cs.foldl (fun b d => if b.score < d.score then d else b) c).score) ∧
      ∀ d ∈ c :: cs,
        d.score ≤ (cs.foldl (fun b d => if b.score < d.score then d else b) c).score := by
  induction cs generalizing c with
  | nil => exact ⟨[], [], rfl, by simp, by simp⟩
  | cons d cs ih =>
    rw [List.foldl_cons]
    by_cases hlt : c.score < d.score
    · rw [if_pos hlt]
      obtain ⟨pre, post, hdec, hpre, hbd⟩ := ih d
      refine ⟨c :: pre, post, by rw [List.cons_append, ← hdec], ?_, ?_⟩
      · intro x hx
        rcases List.mem_cons.mp hx with rfl | hx
        · exact lt_of_lt_of_le hlt (hbd d (by simp))
        · exact hpre x hx
      · intro x hx
        rcases List.mem_cons.mp hx with rfl | hx
        · exact le_of_lt (lt_of_lt_of_le hlt (hbd d (by simp)))
        · exact hbd x hx
    · rw [if_neg hlt]
      obtain ⟨pre, post, hdec, hpre, hbd⟩ := ih c
      generalize hr : List.foldl (fun b d => if b.score < d.score then d else b) c cs = r
        at hdec hpre hbd ⊢
      cases pre with
      | nil =>
        rw [List.nil_append] at hdec
        injection hdec with h1 h2
        refine ⟨[], d :: cs, ?_, by simp, ?_⟩
        · rw [List.nil_append, ← h1]
        · intro x hx
          rcases List.mem_cons.mp hx with rfl | hx
          · rw [← h1]
          · rcases List.mem_cons.mp hx with rfl | hx
            · rw [← h1]; exact le_of_not_lt hlt
            · exact hbd x (by simp [hx])
      | cons p pre' =>
        rw [List.cons_append] at hdec
        injection hdec with h1 h2
        subst h1
        refine ⟨c :: d :: pre', post, ?_, ?_, ?_⟩
        · rw [h2]; simp
        · intro x hx
          rcases List.mem_cons.mp hx with rfl | hx
          · exact hpre x (by simp)
          · rcases List.mem_cons.mp hx with rfl | hx
            · exact lt_of_le_of_lt (le_of_not_lt hlt) (hpre c (by simp))
            · exact hpre x (by simp [hx])
        · intro x hx
          rcases List.mem_cons.mp hx with rfl | hx
          · exact hbd x (by simp)
          · rcases List.mem_cons.mp hx with rfl | hx
            · exact le_trans (le_of_not_lt hlt) (hbd c (by simp))
            · exact hbd x (by simp [hx])

theorem pickBest_spec (l : List Candidate) (c : Candidate)
    (h : pickBest l = some c) :
    ∃ pre post, l = pre ++ c :: post ∧ (∀ d ∈ pre, d.score < c.score) ∧
      ∀ d ∈ l, d.score ≤ c.score := by
  cases l with
  | nil => simp [pickBest] at h
  | cons a as =>
    simp only [pickBest, Option.some.injEq] at h
    subst h
    exact foldBest_decomp as a

theorem pickBest_mem (l : List Candidate) (c : Candidate)
    (h : pickBest l = some c) : c ∈ l := by
  obtain ⟨pre, post, hdec, -, -⟩ := pickBest_spec l c h
  rw [hdec]
  simp

/-! ## Helper lemmas: shape of a successful parse -/

theorem parseBytes_success_shape (st : ParserState) (rawHex : String)
    (bytes : List Nat) (h : (parseBytes st rawHex bytes).success = true) :
    ∃ seq c, 19 ≤ bytes.length ∧ bytes.getD 0 0 = 0x23 ∧
      bytes.getLast? = some 0x21 ∧ seqDigit? (bytes.getD 1 0) = some seq ∧
      pickBest (computeCandidates st.tables ((bytes.drop 2).dropLast)) = some c ∧
      parseBytes st rawHex bytes = successResult st rawHex seq c := by
  unfold parseBytes at h ⊢
  by_cases h1 : bytes.length < 19
  · rw [if_pos h1] at h
    simp [failResult] at h
  · rw [if_neg h1] at h ⊢
    by_cases h2 : bytes.getD 0 0 = 0x23 ∧ bytes.getLast? = some 0x21
    · rw [if_neg (not_not_intro h2)] at h ⊢
      cases hseq : seqDigit? (bytes.getD 1 0) with
      | none =>
        rw [hseq] at h
        simp [failResult] at h
      | some seq =>
        cases hpick :
            pickBest (computeCandidates st.tables ((bytes.drop 2).dropLast)) with
        | none =>
          rw [hseq] at h
          simp only [hpick, failResult] at h
          exact absurd h (by simp)
        | some c => exact ⟨seq, c, by omega, h2.1, h2.2, rfl, rfl, rfl⟩
    · rw [if_pos h2] at h
      simp [failResult] at h


theorem pickBest_isSome (l : List Candidate) (h : l ≠ []) :
    ∃ c, pickBest l = some c := by
  cases l with
  | nil => exact absurd rfl h
  | cons a as => exact ⟨_, rfl⟩

theorem seqDigit?_inv (b seq : Nat) (h : seqDigit? b = some seq) :
    b = 0x30 + seq ∧ seq ≤ 9 := by
  unfold seqDigit? at h
  split at h
  case isTrue hc =>
    injection h with h'
    omega
  case isFalse => exact absurd h (by simp)

theorem padTo22_length (l : List Nat) : 22 ≤ (padTo22 l).length := by
  simp [padTo22]
  omega

/-- Full reduction of `reconstruct` on a reconstructible parse result with
an explicit sequence number. -/
theorem reconstruct_eq_ok (st : ParserState) (pd : ParseResult) (n : Nat)
    (hsuc : pd.success = true) (fc : Nat) (cd : CoreData)
    (hfc : pd.function_code = some fc) (hcd : pd.core_data = some cd)
    (table : List Nat) (htbl : lookupD st.tables fc = some table)
    (b1 b2 bf b3 b4 b5 : List Nat)
    (h1 : packU32le cd.param1 = some b1) (h2 : packU32le cd.param2 = some b2)
    (hf : packU16le fc = some bf) (h3 : packU16le cd.param3 = some b3)
    (h4 : packU16le cd.param4 = some b4) (h5 : packU16le cd.param5 = some b5)
    (hn : n < 10) :
    reconstruct st pd (some n) =
      (Except.ok
        (0x23 :: (0x30 + n) ::
          (xorWith table
            (padTo22 (b1 ++ b2 ++ bf ++ b3 ++ b4 ++ b5 ++ reconTextBytes pd)) ++
              [0x21]),
         bytesHex
          (0x23 :: (0x30 + n) ::
            (xorWith table
              (padTo22 (b1 ++ b2 ++ bf ++ b3 ++ b4 ++ b5 ++ reconTextBytes pd)) ++
                [0x21]))),
       st) := by
  have hd : digitByte? n = some (0x30 + n) := by
    unfold digitByte?
    rw [if_pos hn]
  unfold reconstruct
  rw [if_neg (by simp [hsuc])]
  simp only [hfc, hcd, htbl, h1, h2, hf, h3, h4, h5, hd]

theorem getD_append_left (l l' : List Nat) (i : Nat) (h : i < l.length) :
    (l ++ l').getD i 0 = l.getD i 0 := by
  rw [List.getD_eq_getElem _ _ (by simp; omega), List.getD_eq_getElem _ _ h]
  exact List.getElem_append_left h

/-- The first 16 bytes of the rebuilt buffer are exactly the first 16
decrypted bytes: repacking the six little-endian fields inverts the
unpacking. -/
theorem data_prefix_getD (d txt : List Nat) (j : Nat) (hj : j < 16) :
    (padTo22 ([d.getD 0 0, d.getD 1 0, d.getD 2 0, d.getD 3 0] ++
        [d.getD 4 0, d.getD 5 0, d.getD 6 0, d.getD 7 0] ++
        [d.getD 8 0, d.getD 9 0] ++ [d.getD 10 0, d.getD 11 0] ++
        [d.getD 12 0, d.getD 13 0] ++ [d.getD 14 0, d.getD 15 0] ++ txt)).getD j 0 =
      d.getD j 0 := by
  simp only [padTo22, List.cons_append, List.nil_append]
  interval_cases j <;> rfl

theorem getD_cons_cons (a b d : Nat) (l : List Nat) (j : Nat) :
    (a :: b :: l).getD (j + 2) d = l.getD j d := rfl

/-! ## Concrete fixtures -/

/-- The spec's first golden fixture packet
`23 34 3C 3C 3C 3C 3C 3C 3C 3C 3C 3C 3F 41 3E 72 58 3C 3C 6C 3D 52 3C 3C 21`. -/
def goldenBytes : List Nat :=
  [0x23, 0x34, 0x3C, 0x3C, 0x3C, 0x3C, 0x3C, 0x3C, 0x3C, 0x3C, 0x3C, 0x3C,
   0x3F, 0x41, 0x3E, 0x72, 0x58, 0x3C, 0x3C, 0x6C, 0x3D, 0x52, 0x3C, 0x3C, 0x21]

/-- The golden fixture's payload (`bytes[2:-1]`). -/
def goldenPayload : List Nat := (goldenBytes.drop 2).dropLast

/-- The winning classifier candidate on the golden fixture (code 3013,
the 16-byte movement table, total score 336). -/
def goldenCand : Candidate :=
  { code := 0x0BC5,
    table := [0x3C, 0x3C, 0x3C, 0x3C, 0x3C, 0x3C, 0x3C, 0x3C,
              0xF9, 0x37, 0x58, 0x41, 0x3D, 0x72, 0x0E, 0x3C],
    decrypted := [0, 0, 0, 0, 0, 0, 0, 0, 0xC5, 0x0B, 0x67, 0, 0x03, 0,
                  0x56, 0, 0, 0x50, 0x01, 0x6E, 0, 0],
    score := 336 }

/-- The golden fixture with its sequence byte replaced by ASCII `'0'`. -/
def seqZeroPacket : List Nat :=
  [0x23, 0x30, 0x3C, 0x3C, 0x3C, 0x3C, 0x3C, 0x3C, 0x3C, 0x3C, 0x3C, 0x3C,
   0x3F, 0x41, 0x3E, 0x72, 0x58, 0x3C, 0x3C, 0x6C, 0x3D, 0x52, 0x3C, 0x3C, 0x21]

/-- A well-formed packet whose decrypted payload under the 24-byte table
of code `0x03EE` (1006) is `65 AE 2D 00 | 00 00 00 00 | EE 03 | 00 00 |
00 00 | 00 00 | 01`: seventeen bytes, the last being a non-printable
extension byte inside the table-covered region. -/
def extPacket : List Nat :=
  [0x23, 0x31, 0x6A, 0x26, 0x50, 0x3C, 0x3C, 0x3C, 0x3C, 0x3C, 0x3C, 0x3C,
   0x70, 0x6A, 0x62, 0x70, 0x68, 0x3C, 0x82, 0x21]

/-- A decrypted buffer whose `param1` field is exactly `0xFFFFFF`
(little-endian bytes `FF FF FF 00`), embedded code 1006. -/
def boundaryDecrypted : List Nat :=
  [0xFF, 0xFF, 0xFF, 0x00, 0, 0, 0, 0, 0xEE, 0x03, 0, 0, 0, 0, 0, 0]

/-- A reconstructible parse result used to drive the sequence counter
(fields of the golden fixture's movement packet). -/
def samplePd : ParseResult :=
  { success := true, raw_hex := "", sequence := some 4,
    function_code := some 0x0BC5, function_name := some "移动_新坐标系",
    core_data := some { param1 := 0, param2 := 0, function_code := 0x0BC5,
                        param3 := 103, param4 := 3, param5 := 86 },
    extended_data := none, decrypted := none, plaintext := none, error := none }

/-- One auto-sequenced `reconstruct` call, viewed as a state transition. -/
def reconStep (st : ParserState) : ParserState :=
  (reconstruct st samplePd none).2

/-! ## Claims -/

/-- C2: every candidate the classifier accepts has the little-endian u16
at offset 8 of the XOR-decoded payload equal to that table's own
registered function code — for every input payload and every registry
state.  (The candidate also records exactly the registered table and the
XOR-decoding of the payload with it.) -/
theorem c2_self_consistency (tables : List (Nat × List Nat))
    (payload : List Nat) (c : Candidate)
    (hc : c ∈ computeCandidates tables payload) :
    readU16le c.decrypted 8 = c.code ∧ (c.code, c.table) ∈ tables ∧
      c.decrypted = xorWith c.table payload :=
  let s := computeCandidates_spec tables payload c hc
  ⟨s.2.2.2.1, s.1, s.2.1⟩

/-- Witness for C2: the winning candidate of the golden fixture is an
accepted candidate satisfying the invariant. -/
theorem c2_self_consistency_witness :
    readU16le goldenCand.decrypted 8 = goldenCand.code ∧
      (goldenCand.code, goldenCand.table) ∈ xorTableMap ∧
      goldenCand.decrypted = xorWith goldenCand.table goldenPayload :=
  c2_self_consistency xorTableMap goldenPayload goldenCand (by decide)

/-- C4: `parse` never raises — for every input string it returns a
result object where failure is reported in-band via the success flag and
an error message. -/
theorem c4_parse_total_in_band (st : ParserState) (s : String) :
    (parse st s).success = true ∨ (parse st s).error.isSome = true := by
  have hbytes : ∀ rawHex bytes,
      (parseBytes st rawHex bytes).success = true ∨
        (parseBytes st rawHex bytes).error.isSome = true := by
    intro rawHex bytes
    unfold parseBytes
    by_cases h1 : bytes.length < 19
    · rw [if_pos h1]
      simp [failResult]
    · rw [if_neg h1]
      by_cases h2 : ¬(bytes.getD 0 0 = 0x23 ∧ bytes.getLast? = some 0x21)
      · rw [if_pos h2]
        simp [failResult]
      · rw [if_neg h2]
        cases seqDigit? (bytes.getD 1 0) with
        | none => simp [failResult]
        | some seq =>
          cases pickBest (computeCandidates st.tables ((bytes.drop 2).dropLast)) with
          | none => simp [failResult]
          | some c => simp [successResult]
  unfold parse
  cases hexDecode s with
  | none => exact Or.inr rfl
  | some bytes => exact hbytes s bytes

/-- C5 counterexample: a packet whose second byte is ASCII `'0'` is not
rejected — `parse` accepts it (`success = True`, no error) with
sequence number 0. -/
theorem c5_seq_zero_accepted :
    (parseBytes initState "" seqZeroPacket).success = true ∧
    (parseBytes initState "" seqZeroPacket).sequence = some 0 ∧
    (parseBytes initState "" seqZeroPacket).error = none := by decide

/-- C5 (amended): the framer validates length ≥ 19 and the two marker
bytes, failing with the corresponding FormatError message; the second
byte is not validated against `'1'..'9'`: any ASCII digit — `'0'`
included — is accepted as the sequence number, and a non-digit second
byte fails through the generic exception path, not a marker check. -/
theorem c5_framer_checks_amended (st : ParserState) (rawHex : String)
    (bytes : List Nat) :
    (bytes.length < 19 →
      parseBytes st rawHex bytes = failResult rawHex (lengthErrMsg bytes.length)) ∧
    (19 ≤ bytes.length → ¬(bytes.getD 0 0 = 0x23 ∧ bytes.getLast? = some 0x21) →
      parseBytes st rawHex bytes = failResult rawHex markerErrMsg) ∧
    (19 ≤ bytes.length → bytes.getD 0 0 = 0x23 → bytes.getLast? = some 0x21 →
      ¬(0x30 ≤ bytes.getD 1 0 ∧ bytes.getD 1 0 ≤ 0x39) →
      parseBytes st rawHex bytes = failResult rawHex exceptionErrMsg) ∧
    (19 ≤ bytes.length → bytes.getD 0 0 = 0x23 → bytes.getLast? = some 0x21 →
      0x30 ≤ bytes.getD 1 0 → bytes.getD 1 0 ≤ 0x39 →
      (parseBytes st rawHex bytes).sequence = some (bytes.getD 1 0 - 0x30)) := by
  refine ⟨?_, ?_, ?_, ?_⟩
  · intro h
    unfold parseBytes
    rw [if_pos h]
  · intro h1 h2
    unfold parseBytes
    rw [if_neg (by omega), if_pos h2]
  · intro h1 h2 h3 h4
    unfold parseBytes
    rw [if_neg (by omega), if_neg (not_not_intro ⟨h2, h3⟩)]
    have hs : seqDigit? (bytes.getD 1 0) = none := by
      unfold seqDigit?
      rw [if_neg h4]
    simp only [hs]
  · intro h1 h2 h3 h4 h5
    unfold parseBytes
    rw [if_neg (by omega), if_neg (not_not_intro ⟨h2, h3⟩)]
    have hs : seqDigit? (bytes.getD 1 0) = some (bytes.getD 1 0 - 0x30) := by
      unfold seqDigit?
      rw [if_pos ⟨h4, h5⟩]
    simp only [hs]
    cases pickBest (computeCandidates st.tables ((bytes.drop 2).dropLast)) with
    | none => rfl
    | some c => rfl

/-- Witness for C5 (amended): a one-byte input fails the length check
with the length-naming FormatError message. -/
theorem c5_framer_checks_amended_witness :
    ([0x23] : List Nat).length < 19 ∧
      parseBytes initState "23" [0x23] = failResult "23" (lengthErrMsg 1) :=
  ⟨by decide, (c5_framer_checks_amended initState "23" [0x23]).1 (by decide)⟩

/-- C8: the `+10` plausibility bonus (scoring rule 3) at the boundary.
The code awards the bonus only for `param1 < 0xFFFFFF`, so the value
`0xFFFFFF` — which is below `0x1000000` and below the "16M" of the
code's own comment — receives no bonus: on a surviving candidate of code
1006 with `param1 = 0xFFFFFF` the total score is `100 + 50 + 0 + 24 =
174`, with the 10-point bonus missing. -/
theorem c8_plausibility_bonus_boundary :
    readU32le boundaryDecrypted 0 = 0xFFFFFF ∧
    0xFFFFFF < 0x1000000 ∧
    bonusSmallParam1 (readU32le boundaryDecrypted 0) = 0 ∧
    scoreCandidate 0x03EE ((lookupD xorTableMap 0x03EE).getD []) boundaryDecrypted =
      174 := by decide

/-- C9 counterexample: `add_xor_table` on the pre-existing code `0x0BC3`
silently replaces its registered table. -/
theorem c9_register_overwrites :
    lookupD initState.tables 0x0BC3 =
      some [0x3C, 0x3C, 0x3C, 0x3C, 0x3C, 0x3C, 0x3C, 0x3C,
            0xF9, 0x37, 0x58, 0x41, 0x3D, 0x72, 0x0E, 0x3C] ∧
    lookupD (add_xor_table initState 0x0BC3 [0x00] none).tables 0x0BC3 =
      some [0x00] ∧
    ([0x00] : List Nat) ≠
      [0x3C, 0x3C, 0x3C, 0x3C, 0x3C, 0x3C, 0x3C, 0x3C,
       0xF9, 0x37, 0x58, 0x41, 0x3D, 0x72, 0x0E, 0x3C] := by decide

/-- C9 (amended): `add_xor_table` supports runtime insertion — after the
call the code maps to the new table — but an existing entry is silently
overwritten (Python dict assignment semantics); entries under every
other code are left unchanged. -/
theorem c9_register_amended (st : ParserState) (code : Nat)
    (table : List Nat) (name : Option String) (other : Nat) :
    lookupD (add_xor_table st code table name).tables code = some table ∧
    (other ≠ code →
      lookupD (add_xor_table st code table name).tables other =
        lookupD st.tables other) :=
  ⟨lookupD_dictInsert_self st.tables code table,
   fun h => lookupD_dictInsert_ne st.tables code table other h⟩

/-- Witness for C9 (amended): registering a fresh code `0x2000` adds it
and leaves the entry of `0x0BC3` untouched. -/
theorem c9_register_amended_witness :
    lookupD (add_xor_table initState 0x2000 [1, 2] (some "t")).tables 0x2000 =
      some [1, 2] ∧
    lookupD (add_xor_table initState 0x2000 [1, 2] (some "t")).tables 0x0BC3 =
      lookupD initState.tables 0x0BC3 :=
  ⟨(c9_register_amended initState 0x2000 [1, 2] (some "t") 0x0BC3).1,
   (c9_register_amended initState 0x2000 [1, 2] (some "t") 0x0BC3).2 (by decide)⟩

/-- C10: `reconstruct` with an explicit sequence argument leaves the
parser state — in particular the sequence counter — unchanged, on every
path including errors; and even an auto-sequenced call touches nothing
but the sequence counter. -/
theorem c10_reconstruct_explicit_seq_frame (st : ParserState)
    (pd : ParseResult) (n : Nat) :
    (reconstruct st pd (some n)).2 = st ∧
    (reconstruct st pd none).2.tables = st.tables ∧
    (reconstruct st pd none).2.names = st.names := by
  refine ⟨?_, ?_, ?_⟩ <;>
    · unfold reconstruct
      repeat' split
      all_goals first
        | rfl
        | simp_all

/-- C3: on a well-framed packet the classifier either fails in-band with
the ClassificationFailure message (zero surviving candidates) or selects
exactly one candidate: the one of maximal total score, the first in
registry insertion order among ties (`pre` lists the candidates tried
before the winner, all of strictly smaller score). -/
theorem c3_classifier_selection (st : ParserState) (rawHex : String)
    (bytes : List Nat) (hlen : 19 ≤ bytes.length)
    (hhead : bytes.getD 0 0 = 0x23) (hlast : bytes.getLast? = some 0x21)
    (hseq : 0x30 ≤ bytes.getD 1 0 ∧ bytes.getD 1 0 ≤ 0x39) :
    (computeCandidates st.tables ((bytes.drop 2).dropLast) = [] →
      (parseBytes st rawHex bytes).success = false ∧
        (parseBytes st rawHex bytes).error = some classifyErrMsg) ∧
    (computeCandidates st.tables ((bytes.drop 2).dropLast) ≠ [] →
      ∃ c pre post,
        pickBest (computeCandidates st.tables ((bytes.drop 2).dropLast)) = some c ∧
        (parseBytes st rawHex bytes).success = true ∧
        (parseBytes st rawHex bytes).function_code = some c.code ∧
        computeCandidates st.tables ((bytes.drop 2).dropLast) = pre ++ c :: post ∧
        (∀ d ∈ pre, d.score < c.score) ∧
        (∀ d ∈ computeCandidates st.tables ((bytes.drop 2).dropLast),
          d.score ≤ c.score)) := by
  have hsd : seqDigit? (bytes.getD 1 0) = some (bytes.getD 1 0 - 0x30) := by
    unfold seqDigit?
    rw [if_pos hseq]
  constructor
  · intro hempty
    unfold parseBytes
    rw [if_neg (by omega), if_neg (not_not_intro ⟨hhead, hlast⟩)]
    simp only [hsd, hempty]
    simp [pickBest, failResult]
  · intro hne
    obtain ⟨c, hpick⟩ :=
      pickBest_isSome (computeCandidates st.tables ((bytes.drop 2).dropLast)) hne
    obtain ⟨pre, post, hdec, hpre, hbd⟩ := pickBest_spec _ _ hpick
    have hp : parseBytes st rawHex bytes =
        successResult st rawHex (bytes.getD 1 0 - 0x30) c := by
      unfold parseBytes
      rw [if_neg (by omega), if_neg (not_not_intro ⟨hhead, hlast⟩)]
      simp only [hsd, hpick]
    exact ⟨c, pre, post, hpick, by rw [hp]; rfl, by rw [hp]; rfl, hdec, hpre, hbd⟩

/-- Witness for C3: on the golden fixture the candidate set is nonempty
and a unique maximal candidate is selected. -/
theorem c3_classifier_selection_witness :
    computeCandidates initState.tables ((goldenBytes.drop 2).dropLast) ≠ [] ∧
    ∃ c pre post,
      pickBest (computeCandidates initState.tables ((goldenBytes.drop 2).dropLast)) =
        some c ∧
      (parseBytes initState "" goldenBytes).success = true ∧
      (parseBytes initState "" goldenBytes).function_code = some c.code ∧
      computeCandidates initState.tables ((goldenBytes.drop 2).dropLast) =
        pre ++ c :: post ∧
      (∀ d ∈ pre, d.score < c.score) ∧
      (∀ d ∈ computeCandidates initState.tables ((goldenBytes.drop 2).dropLast),
        d.score ≤ c.score) :=
  ⟨by decide,
   (c3_classifier_selection initState "" goldenBytes (by decide) (by decide)
      (by decide) (by decide)).2 (by decide)⟩

/-- C6 (code evaluated at the claim's fixture): parsing the golden packet
succeeds and classifies to function code 3013 with `param1 = 0`,
`param2 = 0`, `param3 = 103`, `param4 = 3` (and `param5 = 86`), but the
generated plaintext is `发送封包（0，0，3013，103，3，Pn，）` — the claimed
string `发送封包（0，0，3013，103，3，86，）` is not produced:
`_generate_plaintext` drops `param5` (the claimed `86`), and the six
residual extension bytes `00 50 01 6E 00 00` leak through the lenient
text filter as the stray text `"Pn"`. -/
theorem c6_golden_fixture_divergence :
    (parseBytes initState "" goldenBytes).success = true ∧
    (parseBytes initState "" goldenBytes).function_code = some 0x0BC5 ∧
    (parseBytes initState "" goldenBytes).core_data =
      some { param1 := 0, param2 := 0, function_code := 0x0BC5,
             param3 := 103, param4 := 3, param5 := 86 } ∧
    ((parseBytes initState "" goldenBytes).extended_data.map fun ed => ed.text) =
      some (some [.ascii 0x50, .ascii 0x6E]) ∧
    (parseBytes initState "" goldenBytes).plaintext =
      some "发送封包（0，0，3013，103，3，Pn，）" ∧
    (parseBytes initState "" goldenBytes).plaintext ≠
      some "发送封包（0，0，3013，103，3，86，）" := by decide

theorem reconStep_eq (m : Nat) :
    reconStep { sequence := m, tables := xorTableMap, names := functionNames } =
      { sequence := m % 9 + 1, tables := xorTableMap, names := functionNames } := rfl

theorem reconStep_iterate (k : Nat) :
    reconStep^[k] initState =
      { sequence := k % 9 + 1, tables := xorTableMap, names := functionNames } := by
  induction k with
  | zero => rfl
  | succ n ih =>
    rw [Function.iterate_succ_apply', ih, reconStep_eq]
    have h9 : (n % 9 + 1) % 9 + 1 = (n + 1) % 9 + 1 := by omega
    rw [h9]

theorem recon_emit (m : Nat) (h1 : 1 ≤ m) (h9 : m ≤ 9) :
    (reconBytes
      (reconstruct ⟨m, xorTableMap, functionNames⟩ samplePd none).1).getD 1 0 =
      0x30 + m := by
  interval_cases m <;> decide

/-- C7: with the sequence argument omitted, `reconstruct` emits the
current counter value as the sequence digit and advances the counter by
`(current mod 9) + 1`; starting from the constructor's `1` the counter
after `k` calls is `k % 9 + 1` — always within `1..9`, never `0` — and
the `k`-th emitted digit byte is ASCII `'1'`..`'9'` cycling. -/
theorem c7_sequence_counter_cycles (k : Nat) :
    (reconStep^[k] initState).sequence = k % 9 + 1 ∧
    1 ≤ (reconStep^[k] initState).sequence ∧
    (reconStep^[k] initState).sequence ≤ 9 ∧
    (reconBytes (reconstruct (reconStep^[k] initState) samplePd none).1).getD 1 0 =
      0x30 + (k % 9 + 1) := by
  rw [reconStep_iterate]
  refine ⟨rfl, ?_, ?_, ?_⟩
  · show 1 ≤ k % 9 + 1
    omega
  · show k % 9 + 1 ≤ 9
    omega
  · exact recon_emit (k % 9 + 1) (by omega) (by omega)

/-- C1 counterexample: `extPacket` is well-formed, parses successfully,
and its classifier-selected table is the 24-byte table of code 1006 —
yet reconstructing with the parsed sequence yields `0x83` at packet
position 18 (payload offset 16, inside the table's covered length),
where the original packet has `0x82`: the non-printable extension byte
`0x01` was dropped by the text filter and re-encoded as padding `0x00`. -/
theorem c1_roundtrip_ext_counterexample :
    (parseBytes initState "" extPacket).success = true ∧
    (parseBytes initState "" extPacket).function_code = some 0x03EE ∧
    (lookupD initState.tables 0x03EE).map List.length = some 24 ∧
    (parseBytes initState "" extPacket).sequence = some 1 ∧
    (reconBytes
        (reconstruct initState (parseBytes initState "" extPacket) (some 1)).1).getD
      18 0 = 0x83 ∧
    extPacket.getD 18 0 = 0x82 := by decide

/-- C1 (amended): for every registry state and every packet that `parse`
accepts, reconstructing with the parsed sequence number reproduces the
packet bit-exactly on the frame header, the sequence digit and the
entire fixed 16-byte record region (packet positions 0..17) — the
positions covered by a table's length only up to offset 16.  Positions
in the extension region are not guaranteed even when the table covers
them (see the counterexample). -/
theorem c1_roundtrip_record_region (st : ParserState) (rawHex : String)
    (bytes : List Nat)
    (hbytes : ∀ b ∈ bytes, b < 256)
    (htab : ∀ p ∈ st.tables, ∀ b ∈ p.2, b < 256)
    (hnd : (st.tables.map Prod.fst).Nodup)
    (hsucc : (parseBytes st rawHex bytes).success = true) :
    ∃ seq enc hexs,
      (parseBytes st rawHex bytes).sequence = some seq ∧
      reconstruct st (parseBytes st rawHex bytes) (some seq) =
        (Except.ok (enc, hexs), st) ∧
      ∀ i < 18, enc.getD i 0 = bytes.getD i 0 := by
  obtain ⟨seq, c, hlen, hhead, hlast, hseqd, hpick, heq⟩ :=
    parseBytes_success_shape st rawHex bytes hsucc
  obtain ⟨hmem, hdecr, hlen10, hcode, hscore⟩ :=
    computeCandidates_spec st.tables _ c (pickBest_mem _ _ hpick)
  obtain ⟨hb1, hseq9⟩ := seqDigit?_inv _ _ hseqd
  have hpbytes := payload_bytes_lt bytes hbytes
  have htabc : ∀ b ∈ c.table, b < 256 := htab (c.code, c.table) hmem
  have hdbytes : ∀ b ∈ c.decrypted, b < 256 := by
    rw [hdecr]
    exact xorWith_bytes_lt _ _ htabc hpbytes
  have hplen : ((bytes.drop 2).dropLast).length = bytes.length - 3 :=
    payload_length bytes
  have h1 : packU32le (readU32le c.decrypted 0) =
      some [c.decrypted.getD 0 0, c.decrypted.getD 1 0, c.decrypted.getD 2 0,
            c.decrypted.getD 3 0] := by
    simpa using packU32le_readU32le c.decrypted 0 hdbytes
  have h2 : packU32le (readU32le c.decrypted 4) =
      some [c.decrypted.getD 4 0, c.decrypted.getD 5 0, c.decrypted.getD 6 0,
            c.decrypted.getD 7 0] := by
    simpa using packU32le_readU32le c.decrypted 4 hdbytes
  have hfp : packU16le c.code =
      some [c.decrypted.getD 8 0, c.decrypted.getD 9 0] := by
    rw [← hcode]
    simpa using packU16le_readU16le c.decrypted 8 hdbytes
  have h3 : packU16le (readU16le c.decrypted 10) =
      some [c.decrypted.getD 10 0, c.decrypted.getD 11 0] := by
    simpa using packU16le_readU16le c.decrypted 10 hdbytes
  have h4 : packU16le (readU16le c.decrypted 12) =
      some [c.decrypted.getD 12 0, c.decrypted.getD 13 0] := by
    simpa using packU16le_readU16le c.decrypted 12 hdbytes
  have h5 : packU16le (readU16le c.decrypted 14) =
      some [c.decrypted.getD 14 0, c.decrypted.getD 15 0] := by
    simpa using packU16le_readU16le c.decrypted 14 hdbytes
  have htbl : lookupD st.tables c.code = some c.table :=
    lookupD_eq_of_mem st.tables hnd _ _ hmem
  rw [heq]
  have hrec := reconstruct_eq_ok st (successResult st rawHex seq c) seq rfl
    c.code (coreDataOf c) rfl rfl c.table htbl _ _ _ _ _ _
    h1 h2 hfp h3 h4 h5 (by omega)
  refine ⟨seq, _, _, rfl, hrec, ?_⟩
  intro i hi
  have hdatalen : 22 ≤
      (padTo22 ([c.decrypted.getD 0 0, c.decrypted.getD 1 0, c.decrypted.getD 2 0,
          c.decrypted.getD 3 0] ++
        [c.decrypted.getD 4 0, c.decrypted.getD 5 0, c.decrypted.getD 6 0,
          c.decrypted.getD 7 0] ++
        [c.decrypted.getD 8 0, c.decrypted.getD 9 0] ++
        [c.decrypted.getD 10 0, c.decrypted.getD 11 0] ++
        [c.decrypted.getD 12 0, c.decrypted.getD 13 0] ++
        [c.decrypted.getD 14 0, c.decrypted.getD 15 0] ++
        reconTextBytes (successResult st rawHex seq c))).length :=
    padTo22_length _
  rcases i with - | i
  · simpa [List.getD] using hhead.symm
  · rcases i with - | j
    · show 0x30 + seq = bytes.getD 1 0
      omega
    · have hj : j < 16 := by omega
      rw [getD_cons_cons]
      rw [getD_append_left _ _ j (by rw [xorWith_length]; omega)]
      rw [xorWith_getD _ _ j (by omega)]
      rw [data_prefix_getD _ _ j hj]
      conv_lhs => rw [hdecr]
      rw [xorWith_getD _ _ j (by rw [hplen]; omega)]
      rw [xor_cancel_right]
      exact payload_getD bytes j (by omega)

/-- Witness for C1 (amended): the golden fixture round-trips on the
record region. -/
theorem c1_roundtrip_record_region_witness :
    ∃ seq enc hexs,
      (parseBytes initState "" goldenBytes).sequence = some seq ∧
      reconstruct initState (parseBytes initState "" goldenBytes) (some seq) =
        (Except.ok (enc, hexs), initState) ∧
      ∀ i < 18, enc.getD i 0 = goldenBytes.getD i 0 :=
  c1_roundtrip_record_region initState "" goldenBytes (by decide) (by decide)
    (by decide) (by decide)

end Fengbao
